import Mathlib

/-!
# Verification of the VMT material-document engine

Shallow embedding of the material-document engine of
`vtf_material_tool_pyside6.py` (MQTool/MQTools-VTFCmd): the VMT parameter
parsers, the PBR parameter classifier, the smart-merge routines and the
serializers, together with proofs about the spec's claimed properties.

Python strings are Lean `String`s (operated on through their `List Char`
data, with hand-rolled structural primitives mirroring Python's `split`,
`strip`, `lower`, `in`, `startswith`, `count`).  Python `dict`s (ordered,
exact-key) are association lists `List (String × String)` with the usual
dict assignment semantics (`dictInsert`: replace in place keeping the
original position, else append).  Python `set`s are lists used only
through membership.  The filesystem consulted by the batch patch parser
is an explicit association list from path to file content, and its
unbounded include recursion is given a fuel parameter.
-/

set_option autoImplicit false

namespace VMT

/-- Character-list strings, the logical model of Python text. -/
abbrev Chars := List Char

/-- Python `s.lower()` (ASCII case folding, which is all the tool uses). -/
def toLowerStr (s : String) : String := String.mk (s.data.map Char.toLower)

/-- Does the first list lead (occur as a prefix of) the second? -/
def leadsWith : Chars → Chars → Bool
  | [], _ => true
  | _ :: _, [] => false
  | a :: as, b :: bs => if a = b then leadsWith as bs else false

/-- Python `needle in hay` on character lists (contiguous substring). -/
def occursIn (needle : Chars) : Chars → Bool
  | [] => needle.isEmpty
  | c :: rest => leadsWith needle (c :: rest) || occursIn needle rest

/-- Python `s.startswith(pat)`. -/
def strStartsWith (s pat : String) : Bool := leadsWith pat.data s.data

/-- Python `needle in hay` on strings. -/
def strOccurs (needle hay : String) : Bool := occursIn needle.data hay.data

/-- Character membership in a character list. -/
def cmem (c : Char) : Chars → Bool
  | [] => false
  | d :: l => if d = c then true else cmem c l

/-- Number of occurrences of a character, Python `s.count(c)`. -/
def ccount (c : Char) : Chars → Nat
  | [] => 0
  | d :: l => (if d = c then 1 else 0) + ccount c l

/-- Python `c in s` for a single character. -/
def containsChar (c : Char) (s : String) : Bool := cmem c s.data

/-- Python `s.count(c)`. -/
def countChar (c : Char) (s : String) : Nat := ccount c s.data

/-- The whitespace set of Python's default `str.strip`. -/
def isPySpace (c : Char) : Bool :=
  if c = ' ' then true else if c = '\t' then true else if c = '\n' then true
  else if c = '\r' then true else if c = Char.ofNat 11 then true
  else if c = Char.ofNat 12 then true else false

/-- Python `s.strip()` on character lists. -/
def pyStripChars (l : Chars) : Chars :=
  ((l.dropWhile isPySpace).reverse.dropWhile isPySpace).reverse

/-- Python `s.strip()`. -/
def pyStrip (s : String) : String := String.mk (pyStripChars s.data)

/-- Python `s.split(sep)` on character lists: the separator is consumed and
empty segments are kept, `split` of the empty text is one empty segment. -/
def splitCh (sep : Char) : Chars → List Chars
  | [] => [[]]
  | c :: rest =>
    if c = sep then [] :: splitCh sep rest
    else
      match splitCh sep rest with
      | [] => [[c]]
      | h :: t => (c :: h) :: t

/-- Python `content.split(chr(10))`. -/
def linesOf (s : String) : List String := (splitCh '\n' s.data).map String.mk

/-- Python `line.split(chr(34))`. -/
def splitQuotes (s : String) : List String := (splitCh '"' s.data).map String.mk

/-- Python `sep.join` at the character-list level. -/
def joinSep (sep : Char) : List Chars → Chars
  | [] => []
  | [l] => l
  | l :: l2 :: ls => l ++ sep :: joinSep sep (l2 :: ls)

/-- Python `chr(10).join(lines)`. -/
def joinNL (ls : List String) : String := String.mk (joinSep '\n' (ls.map String.data))

/-- Python `s[n:]` (character indexing). -/
def strDrop (n : Nat) (s : String) : String := String.mk (s.data.drop n)

/-- An ordered parameter mapping: the logical model of the Python `dict`
used for VMT parameters.  Keys are exact (case-sensitive) strings. -/
abbrev PSet := List (String × String)

/-- Python `k in d` for a dict. -/
def hasKey : PSet → String → Bool
  | [], _ => false
  | p :: m, k => if p.1 = k then true else hasKey m k

/-- Python `d.get(k)`: the value at the first exact occurrence of `k`. -/
def lookupKey : PSet → String → Option String
  | [], _ => none
  | p :: m, k => if p.1 = k then some p.2 else lookupKey m k

/-- Python dict assignment `d[k] = v`: replace the value in place keeping
the original position when the key exists, otherwise append at the end. -/
def dictInsert (m : PSet) (k v : String) : PSet :=
  if hasKey m k then m.map (fun p => if p.1 = k then (k, v) else p)
  else m ++ [(k, v)]

/-- Python `d.update(other)`: assignment of every pair of `other` in order. -/
def dictUpdate (m : PSet) (other : PSet) : PSet :=
  other.foldl (fun acc p => dictInsert acc p.1 p.2) m

/-- Python `del d[k]`. -/
def dictRemove : PSet → String → PSet
  | [], _ => []
  | p :: m, k => if p.1 = k then dictRemove m k else p :: dictRemove m k

/-- Membership in a list of strings (Python set membership, key lists). -/
def strMem (x : String) : List String → Bool
  | [] => false
  | y :: l => if y = x then true else strMem x l

/-- The dict invariant: no two entries share an exact key. -/
def NodupKeys (m : PSet) : Prop := (m.map Prod.fst).Nodup

instance : DecidablePred NodupKeys := fun m =>
  inferInstanceAs (Decidable ((m.map Prod.fst).Nodup))

/-!
## Single-file engine (class L4D2ProcessingThread)

`parse_standard_vmt`, `parse_patch_vmt`, `parse_vmt_params`,
`identify_pbr_parameters`, `smart_merge_vmt`, `build_vmt_from_params`
(source lines 7622-7824), plus the near-duplicate single-file pair
`parse_vmt_parameters` / `merge_vmt_files` (source lines 7161-7208).
GUI logging (`progress.emit`) is pure output and is dropped; the file
read at the head of `smart_merge_vmt` is abstracted by handing the
function the existing file's content directly.
-/

/-- One line of `parse_standard_vmt` (source 7727-7738): after `strip`, a
line starting with quote-dollar and holding a second quote past index 2 is
split on quotes, and with at least 4 parts yields `(parts[1], parts[3])`.
(The source's try/except around this block is unreachable: every statement
in it is guarded.)  Factored out of the fold for reuse by
`parse_vmt_parameters`, whose loop body (source 7198-7206) is identical. -/
def stdParseLine (rawLine : String) : Option (String × String) :=
  let line := pyStrip rawLine
  if strStartsWith line "\"$" && containsChar '"' (strDrop 2 line) then
    let parts := splitQuotes line
    if 4 ≤ parts.length then some (parts.getD 1 "", parts.getD 3 "") else none
  else none

/-- The fold step of `parse_standard_vmt`: dict assignment on a parsed line. -/
def stdStep (params : PSet) (rawLine : String) : PSet :=
  match stdParseLine rawLine with
  | some (k, v) => dictInsert params k v
  | none => params

/-- `parse_standard_vmt` (source 7722-7740): line-oriented scan of the
whole content; total, never fails. -/
def parse_standard_vmt (content : String) : PSet :=
  (linesOf content).foldl stdStep []

/-- `parse_vmt_parameters` (source 7193-7208), the near-duplicate of
`parse_standard_vmt` used by `merge_vmt_files`; its loop body is
line-for-line the same. -/
def parse_vmt_parameters (content : String) : PSet :=
  (linesOf content).foldl stdStep []

/-- The patch-format dispatch test of `parse_vmt_params` (source 7717):
both `patch` and `include` occur case-insensitively in the content. -/
def vmtIsPatch (content : String) : Bool :=
  strOccurs "patch" (toLowerStr content) && strOccurs "include" (toLowerStr content)

/-- The include scan of `parse_patch_vmt` (source 7748-7758): first line
containing `include` and `.vmt`, value between the first and last quote.
The source only logs this path and never opens it; the parse result does
not depend on it. -/
def parse_patch_include (content : String) : Option String :=
  (linesOf content).foldl
    (fun acc rawLine =>
      match acc with
      | some p => some p
      | none =>
        let line := pyStrip rawLine
        if strOccurs "include" (toLowerStr line) && strOccurs ".vmt" (toLowerStr line) then
          let parts := splitQuotes line
          if 3 ≤ parts.length then
            some (String.mk (joinSep '"' ((splitCh '"' line.data).drop 1).dropLast))
          else none
        else none)
    none

/-- One pass of `parse_patch_vmt` over the lines for a given block keyword
(source 7766-7785 for `replace`, 7787-7806 for `insert`): a line holding
the keyword and an opening brace enters the block, the next line holding a
closing brace leaves it, and lines starting with quote-dollar inside the
block are parsed like standard parameter lines (without the second-quote
guard).  State is (inside-block, params). -/
def patchBlockStep (keyword : String) (s : Bool × PSet) (rawLine : String) : Bool × PSet :=
  let line := pyStrip rawLine
  if strOccurs keyword (toLowerStr line) && containsChar '{' line then
    (true, s.2)
  else if s.1 && containsChar '}' line then
    (false, s.2)
  else if s.1 && strStartsWith line "\"$" then
    let parts := splitQuotes line
    if 4 ≤ parts.length then (s.1, dictInsert s.2 (parts.getD 1 "") (parts.getD 3 ""))
    else s
  else s

/-- `parse_patch_vmt` (source 7742-7814): the replace pass, then the insert
pass, writing into one shared dict.  The included base file is never
opened.  (The source's try/except fallback to `parse_standard_vmt` is
unreachable: the loop body cannot raise.) -/
def parse_patch_vmt (content : String) : PSet :=
  let afterReplace := ((linesOf content).foldl (patchBlockStep "replace") (false, [])).2
  ((linesOf content).foldl (patchBlockStep "insert") (false, afterReplace)).2

/-- `parse_vmt_params` (source 7714-7720): dispatch on the patch test. -/
def parse_vmt_params (content : String) : PSet :=
  if vmtIsPatch content then parse_patch_vmt content else parse_standard_vmt content

/-- `build_vmt_from_params` (source 7816-7824): the serializer, always a
Standard VertexLitGeneric block regardless of where the params came from. -/
def build_vmt_from_params (params : PSet) : String :=
  joinNL (["\"VertexLitGeneric\"", "\x7b"]
    ++ params.map (fun p => "\t\"" ++ p.1 ++ "\"\t\t\"" ++ p.2 ++ "\"")
    ++ ["\x7d"])

/-- The PBR semantic keyword set of `identify_pbr_parameters` (source 7687-7690). -/
def pbrSemanticKeywords : List String :=
  ["phong", "envmap", "bump", "normal", "metallic", "roughness",
   "basetexture", "albedo", "specular", "reflection"]

/-- The common PBR parameter set of `identify_pbr_parameters` (source 7701-7705). -/
def commonPbrParams : List String :=
  ["$model", "$surfaceprop", "$halflambert", "$phongfresnelranges",
   "$phongboost", "$phongalbedotint", "$envmapfresnel", "$envmapcontrast",
   "$envmaptint", "$normalmapalphaenvmapmask"]

/-- `identify_pbr_parameters` (source 7660-7712).  The Python result is a
set of lowered parameter names; sets are used only through membership, so
it is modeled as the concatenation of the four rules' contributions:
1. existing params whose value contains the material base name,
2. generated params whose value contains the material base name,
3. generated params whose lowered name contains a PBR semantic keyword,
4. generated params whose lowered name is a common PBR parameter.
(`value.lower() if value else ""` equals `value.lower()`: the empty string
lowers to itself.) -/
def identify_pbr_parameters (existing generated : PSet) (material_name : String) : List String :=
  let base := toLowerStr material_name
  ((existing.filter (fun p => occursIn base.data (toLowerStr p.2).data)).map
      (fun p => toLowerStr p.1))
  ++ ((generated.filter (fun p => occursIn base.data (toLowerStr p.2).data)).map
      (fun p => toLowerStr p.1))
  ++ ((generated.filter (fun p =>
        pbrSemanticKeywords.any (fun kw => occursIn kw.data (toLowerStr p.1).data))).map
      (fun p => toLowerStr p.1))
  ++ ((generated.filter (fun p => strMem (toLowerStr p.1) commonPbrParams)).map
      (fun p => toLowerStr p.1))

/-- The merge loop of `smart_merge_vmt` (source 7637-7651): start from a
copy of the existing params; a generated param whose lowered name is
PBR-related is assigned, a generated param absent from the existing dict
is assigned, anything else is kept. -/
def smart_merge_params (existing generated : PSet) (material_name : String) : PSet :=
  let pbr := identify_pbr_parameters existing generated material_name
  generated.foldl
    (fun merged p =>
      if strMem (toLowerStr p.1) pbr then dictInsert merged p.1 p.2
      else if hasKey existing p.1 then merged
      else dictInsert merged p.1 p.2)
    existing

/-- `smart_merge_vmt` (source 7622-7658) with the file read abstracted:
parse both documents, merge, serialize.  (The except-branch returning the
generated text verbatim fires only on I/O failure, outside this model.) -/
def smart_merge_vmt (existing_content generated_vmt material_name : String) : String :=
  build_vmt_from_params
    (smart_merge_params (parse_vmt_params existing_content)
      (parse_vmt_params generated_vmt) material_name)

/-- The hardcoded PBR parameter set of `merge_vmt_files` (source 7173-7178). -/
def mergeVmtPbrParams : List String :=
  ["$basetexture", "$bumpmap", "$phong", "$phongexponent",
   "$phongexponenttexture", "$phongboost", "$phongfresnelranges",
   "$envmap", "$envmaptint", "$envmapcontrast", "$normalmapalphaenvmapmask",
   "$envmapfresnel", "$phongalbedotint", "$halflambert", "$model", "$surfaceprop"]

/-- The merge loop of `merge_vmt_files` (source 7180-7184): start from a
copy of the original params; a generated key is assigned only when its
lowered form is in the hardcoded PBR set, every other generated key is
discarded. -/
def merge_vmt_params (original generated : PSet) : PSet :=
  generated.foldl
    (fun merged p =>
      if strMem (toLowerStr p.1) mergeVmtPbrParams then dictInsert merged p.1 p.2
      else merged)
    original

/-!
## Batch engine (class L4D2BatchProcessingThread)

`parse_patch_vmt_params`, `_load_include_file`, `parse_batch_vmt_params`,
`_extract_quoted_value`, `_parse_vmt_line`, `_build_patch_vmt`,
`smart_merge_batch_vmt` (source lines 7966-8211).  The filesystem read by
`_load_include_file` is an explicit map from path to content; the
checkbox state `hasattr(self, patch_format_checkbox) and isChecked()` is
an explicit `enabled` flag; the source's unbounded include recursion gets
a fuel parameter (every recursive hop consumes one unit; with fuel 0 the
parse yields the empty dict). -/

/-- A filesystem: association of path to file content. -/
abbrev FS := List (String × String)

/-- Read a file if it exists (`Path.exists` plus `open(...).read()`). -/
def fsRead (fs : FS) (path : String) : Option String := lookupKey fs path

/-- `Path(base_dir) / include_path` for the simple relative paths the tool
builds; `Path(".") / p` and `Path("") / p` are both `p`. -/
def pathJoin (base p : String) : String :=
  if base = "" then p else if base = "." then p else base ++ "/" ++ p

/-- `str(Path(p).parent)`: drop the last slash-separated component, `"."`
when there is none. -/
def pathParent (p : String) : String :=
  let comps := splitCh '/' p.data
  if comps.length ≤ 1 then "." else String.mk (joinSep '/' comps.dropLast)

/-- `_extract_quoted_value` (source 8095-8105): the text between the first
two quotes, empty if there are fewer than two quotes. -/
def _extract_quoted_value (line : String) : String :=
  let parts := splitQuotes line
  if 3 ≤ parts.length then parts.getD 1 "" else ""

/-- `_parse_vmt_line` (source 8133-8143): split on quotes, parts 1 and 3
when there are at least 4 parts, the none/none pair otherwise. -/
def _parse_vmt_line (line : String) : Option (String × String) :=
  let parts := splitQuotes line
  if 4 ≤ parts.length then some (parts.getD 1 "", parts.getD 3 "") else none

/-- The loop state of `parse_patch_vmt_params`: the accumulated dict, the
current section (`insert` / `replace`), the brace depth. -/
structure PatchState where
  params : PSet
  sec : Option String
  brace : Int

/-- One line of `parse_patch_vmt_params` (source 8052-8088); the include
loader is passed as a function so the line step is independent of the
filesystem plumbing.  Faithful branch order: skip blank/comment lines;
count braces, a line with a closing brace possibly ends the section and is
consumed; skip the top-level `patch` head; an `include` line merges the
loaded base dict; a bare `insert`/`replace` line opens that section; a
quote-dollar line inside a section is assigned, where an `insert` section
assigns only keys not already present, and names or values that are empty
are skipped (Python truthiness of `param_name and param_value`). -/
def patchStep (loader : String → PSet) (s : PatchState) (rawLine : String) : PatchState :=
  let line := pyStrip rawLine
  if line = "" ∨ strStartsWith line "//" = true then s
  else
    let b1 : Int := s.brace + (countChar '{' line : Int)
    if containsChar '}' line = true then
      let b2 : Int := b1 - (countChar '}' line : Int)
      { params := s.params
        sec := if b2 ≤ 1 ∧ s.sec.isSome = true then none else s.sec
        brace := b2 }
    else
      let s1 : PatchState := { s with brace := b1 }
      if strStartsWith (toLowerStr line) "patch" = true ∧ b1 = 0 then s1
      else if strStartsWith line "include" = true ∧ containsChar '"' line = true then
        let ip := _extract_quoted_value line
        if ip = "" then s1 else { s1 with params := dictUpdate s1.params (loader ip) }
      else if toLowerStr line = "insert" ∨ toLowerStr line = "replace" then
        { s1 with sec := some (toLowerStr line) }
      else if s1.sec.isSome = true ∧ strStartsWith line "\"$" = true
          ∧ containsChar '"' (strDrop 2 line) = true then
        match _parse_vmt_line line with
        | some (n, v) =>
          if n = "" ∨ v = "" then s1
          else if s1.sec = some "replace" ∨ hasKey s1.params n = false then
            { s1 with params := dictInsert s1.params n v }
          else s1
        | none => s1
      else s1

/-- The loop body of the non-patch branch of `parse_batch_vmt_params`
(source 8027-8042), identical to `parse_standard_vmt`'s loop. -/
def parse_batch_std (content : String) : PSet :=
  (linesOf content).foldl stdStep []

mutual

/-- `parse_patch_vmt_params` (source 8044-8093): fold `patchStep` over the
lines, include files loaded through `_load_include_file`. -/
def parse_patch_vmt_params (enabled : Bool) (fs : FS) : Nat → String → String → PSet
  | 0, _, _ => []
  | n + 1, content, base_dir =>
    ((linesOf content).foldl
      (patchStep (fun ip => _load_include_file enabled fs n ip base_dir))
      { params := [], sec := none, brace := 0 }).params

/-- `_load_include_file` (source 8107-8131): join the path, read the file,
recursively parse it as patch when its stripped content starts with
`patch`, otherwise as a batch document rooted at the file's own path;
a missing file yields the empty dict. -/
def _load_include_file (enabled : Bool) (fs : FS) : Nat → String → String → PSet
  | 0, _, _ => []
  | n + 1, include_path, base_dir =>
    let full := pathJoin base_dir include_path
    match fsRead fs full with
    | none => []
    | some content =>
      if strStartsWith (pyStrip content) "patch" then
        parse_patch_vmt_params enabled fs n content (pathParent full)
      else
        parse_batch_vmt_params enabled fs n content full

/-- `parse_batch_vmt_params` (source 8017-8042): with patch support
enabled and patch-looking content, delegate to the patch parser rooted at
the document's own directory; otherwise the standard line scan. -/
def parse_batch_vmt_params (enabled : Bool) (fs : FS) : Nat → String → String → PSet
  | 0, _, _ => []
  | n + 1, content, vmt_file_path =>
    if enabled &&
        (strStartsWith (toLowerStr (pyStrip content)) "patch"
          || strOccurs "include" (toLowerStr content)) then
      parse_patch_vmt_params enabled fs n content
        (if vmt_file_path = "" then "" else pathParent vmt_file_path)
    else parse_batch_std content

end

/-- The loop state of `_build_patch_vmt`. -/
structure BuildState where
  out : List String
  sec : Option String
  brace : Int
  inRep : Bool
  merged : PSet

/-- One line of `_build_patch_vmt` (source 8154-8187): count braces on the
raw line and possibly close the section; a bare `insert`/`replace` line
opens a section and is copied; a quote-dollar parameter line inside a
section at depth over one whose name is in the merged dict is rewritten
with the merged value (keeping the original indentation) and that name is
deleted from the merged dict; every other line is copied verbatim. -/
def buildStep (s : BuildState) (line : String) : BuildState :=
  let stripped := pyStrip line
  let b1 : Int := s.brace + (countChar '{' line : Int)
  let b2 : Int := if containsChar '}' line = true then b1 - (countChar '}' line : Int) else b1
  let sec2 : Option String :=
    if containsChar '}' line = true ∧ b2 ≤ 1 ∧ s.sec.isSome = true then none else s.sec
  let inRep2 : Bool :=
    if containsChar '}' line = true ∧ b2 ≤ 1 ∧ s.sec.isSome = true then false else s.inRep
  if toLowerStr stripped = "insert" ∨ toLowerStr stripped = "replace" then
    { out := s.out ++ [line], sec := some (toLowerStr stripped), brace := b2
      inRep := decide (toLowerStr stripped = "replace"), merged := s.merged }
  else if sec2.isSome = true ∧ strStartsWith stripped "\"$" = true
      ∧ containsChar '"' (strDrop 2 stripped) = true ∧ 1 < b2 then
    match _parse_vmt_line stripped with
    | some (n, _) =>
      if n = "" then
        { out := s.out ++ [line], sec := sec2, brace := b2, inRep := inRep2
          merged := s.merged }
      else
        match lookupKey s.merged n with
        | some mv =>
          let indent := String.mk (line.data.takeWhile isPySpace)
          let newLine := indent ++ "\"" ++ n ++ "\"\t\t\"" ++ mv ++ "\""
          { out := s.out ++ [newLine], sec := sec2, brace := b2, inRep := inRep2
            merged := dictRemove s.merged n }
        | none =>
          { out := s.out ++ [line], sec := sec2, brace := b2, inRep := inRep2
            merged := s.merged }
    | none =>
      { out := s.out ++ [line], sec := sec2, brace := b2, inRep := inRep2
        merged := s.merged }
  else
    { out := s.out ++ [line], sec := sec2, brace := b2, inRep := inRep2
      merged := s.merged }

/-- The largest line index whose stripped text ends with a closing brace
(the `insert_index` walk of source 8192-8194). -/
def lastCloseIdx : List String → Option Nat
  | [] => none
  | l :: rest =>
    match lastCloseIdx rest with
    | some i => some (i + 1)
    | none =>
      if (pyStrip l).data.getLast? = some '}' then some 0 else none

/-- The tail insertion of `_build_patch_vmt` (source 8189-8200): leftover
merged params are spliced in before the last closing-brace line, only when
the loop ended still inside a replace section. -/
def buildPatchFinish (s : BuildState) : List String :=
  if s.merged ≠ [] ∧ s.inRep then
    match lastCloseIdx s.out with
    | some i =>
      s.out.take i
        ++ s.merged.map (fun p => "\t\t\"" ++ p.1 ++ "\"\t\t\"" ++ p.2 ++ "\"")
        ++ s.out.drop i
    | none => s.out
  else s.out

/-- `_build_patch_vmt` (source 8145-8211).  The except-fallback to a
standard block is unreachable in this pure model. -/
def _build_patch_vmt (original_content : String) (merged_params : PSet) : String :=
  joinNL (buildPatchFinish
    ((linesOf original_content).foldl buildStep
      { out := [], sec := none, brace := 0, inRep := false, merged := merged_params }))

/-- The batch PBR keyword set (source 7988). -/
def batchPbrKeywords : List String := ["phong", "envmap", "bump", "basetexture", "normal"]

/-- `smart_merge_batch_vmt` (source 7966-8015): parse both documents (the
generated one with an empty path), classify (existing values containing
the material name, generated names containing a batch keyword), merge
(assign classified or brand-new generated keys), and serialize in the
existing document's shape: through `_build_patch_vmt` when patch support
is on and the existing content looks patch-like, else a fresh standard
VertexLitGeneric block. -/
def smart_merge_batch_vmt (enabled : Bool) (fs : FS) (fuel : Nat)
    (existing_content generated_vmt material_name vmt_file_path : String) : String :=
  let existing_params := parse_batch_vmt_params enabled fs fuel existing_content vmt_file_path
  let generated_params := parse_batch_vmt_params enabled fs fuel generated_vmt ""
  let is_patch := enabled &&
    (strStartsWith (toLowerStr (pyStrip existing_content)) "patch"
      || strOccurs "include" (toLowerStr existing_content))
  let pbr :=
    ((existing_params.filter (fun p =>
        occursIn (toLowerStr material_name).data (toLowerStr p.2).data)).map
      (fun p => toLowerStr p.1))
    ++ ((generated_params.filter (fun p =>
        batchPbrKeywords.any (fun kw => occursIn kw.data (toLowerStr p.1).data))).map
      (fun p => toLowerStr p.1))
  let merged := generated_params.foldl
    (fun m p =>
      if strMem (toLowerStr p.1) pbr then dictInsert m p.1 p.2
      else if hasKey existing_params p.1 then m
      else dictInsert m p.1 p.2)
    existing_params
  if is_patch then _build_patch_vmt existing_content merged
  else
    joinNL (["\"VertexLitGeneric\"", "\x7b"]
      ++ merged.map (fun p => "\t\"" ++ p.1 ++ "\"\t\t\"" ++ p.2 ++ "\"")
      ++ ["\x7d"])

/-- Concrete documents used by the settled claims. -/
def scenBExisting : String :=
  "patch\n\x7b\n\tinclude \"materials/x/shader/vmt-base.vmt\"\n\treplace\n\t\x7b\n\t\t\"$basetexture\" \"x/old\"\n\t\x7d\n\x7d"

/-- The generated standard document supplying replace-equivalent content
for scenario B. -/
def scenBGenerated : String :=
  "\"VertexLitGeneric\"\n\x7b\n\t\"$basetexture\" \"x/new\"\n\x7d"

/-- The expected scenario-B output: include retained verbatim, the replace
value rewritten. -/
def scenBExpected : String :=
  "patch\n\x7b\n\tinclude \"materials/x/shader/vmt-base.vmt\"\n\treplace\n\t\x7b\n\t\t\"$basetexture\"\t\t\"x/new\"\n\t\x7d\n\x7d"

/-- A patch document including the relative path base.vmt. -/
def patchIncText : String :=
  "patch\n\x7b\n\tinclude \"base.vmt\"\n\treplace\n\t\x7b\n\t\t\"$basetexture\" \"x/new\"\n\t\x7d\n\x7d"

/-- A base document bound to the include path in one filesystem. -/
def baseWood : String := "\"LightmappedGeneric\"\n\x7b\n\t\"$surfaceprop\" \"wood\"\n\x7d"

/-- The same base document with one value changed, for the other filesystem. -/
def baseMetal : String := "\"LightmappedGeneric\"\n\x7b\n\t\"$surfaceprop\" \"metal\"\n\x7d"

/-- The spec's malformed document: missing closing brace. -/
def malformedDoc : String := "\"Foo\" \x7b \"$a\" \"1\""

/-- A patch document with no include directive, for the opacity witness. -/
def noIncludePatch : String :=
  "patch\n\x7b\n\treplace\n\t\x7b\n\t\t\"$a\" \"1\"\n\t\x7d\n\x7d"

/-!
## Helper lemmas: folds, dicts, splitting
-/

theorem foldl_invariant {α β : Type} (f : α → β → α) (P : α → Prop)
    (h : ∀ a b, P a → P (f a b)) :
    ∀ (l : List β) (a : α), P a → P (l.foldl f a) := by
  intro l
  induction l with
  | nil => intro a ha; exact ha
  | cons x xs ih => intro a ha; exact ih (f a x) (h a x ha)

theorem hasKey_eq_true_iff (m : PSet) (k : String) :
    hasKey m k = true ↔ ∃ x ∈ m, x.1 = k := by
  induction m with
  | nil => simp [hasKey]
  | cons p m ih =>
    by_cases h : p.1 = k
    · simp [hasKey, h]
    · simp only [hasKey, if_neg h, ih, List.mem_cons]
      constructor
      · rintro ⟨x, hx, hk⟩; exact ⟨x, Or.inr hx, hk⟩
      · rintro ⟨x, hx | hx, hk⟩
        · exact absurd (hx ▸ hk) h
        · exact ⟨x, hx, hk⟩

theorem hasKey_eq_false_iff (m : PSet) (k : String) :
    hasKey m k = false ↔ ∀ x ∈ m, x.1 ≠ k := by
  constructor
  · intro h x hx hk
    have ht : hasKey m k = true := (hasKey_eq_true_iff m k).2 ⟨x, hx, hk⟩
    rw [h] at ht
    exact Bool.noConfusion ht
  · intro h
    cases hcase : hasKey m k with
    | false => rfl
    | true =>
      rcases (hasKey_eq_true_iff m k).1 hcase with ⟨x, hx, hk⟩
      exact absurd hk (h x hx)

theorem hasKey_append (a b : PSet) (k : String) :
    hasKey (a ++ b) k = (hasKey a k || hasKey b k) := by
  induction a with
  | nil => simp [hasKey]
  | cons p a ih =>
    by_cases h : p.1 = k <;> simp [hasKey, h, ih]

theorem lookupKey_eq_none_of_hasKey_false {m : PSet} {k : String}
    (h : hasKey m k = false) : lookupKey m k = none := by
  induction m with
  | nil => rfl
  | cons p m ih =>
    rw [hasKey] at h
    by_cases hp : p.1 = k
    · rw [if_pos hp] at h; exact absurd h (by simp)
    · rw [if_neg hp] at h
      rw [lookupKey, if_neg hp]
      exact ih h

theorem hasKey_of_lookupKey_some {m : PSet} {k v : String}
    (h : lookupKey m k = some v) : hasKey m k = true := by
  induction m with
  | nil => simp [lookupKey] at h
  | cons p m ih =>
    rw [lookupKey] at h
    by_cases hp : p.1 = k
    · simp [hasKey, hp]
    · rw [if_neg hp] at h
      rw [hasKey, if_neg hp]
      exact ih h

theorem lookupKey_append (a b : PSet) (k : String) :
    lookupKey (a ++ b) k
      = (match lookupKey a k with | some v => some v | none => lookupKey b k) := by
  induction a with
  | nil => simp [lookupKey]
  | cons p a ih =>
    by_cases h : p.1 = k <;> simp [lookupKey, h, ih]

theorem dictInsert_of_hasKey_false {m : PSet} {k : String} (v : String)
    (h : hasKey m k = false) : dictInsert m k v = m ++ [(k, v)] := by
  rw [dictInsert, if_neg (by simp [h])]

theorem keyUnique {m : PSet} (hm : NodupKeys m) {x y : String × String}
    (hx : x ∈ m) (hy : y ∈ m) (hk : x.1 = y.1) : x = y := by
  induction m with
  | nil => cases hx
  | cons p m ih =>
    rw [NodupKeys, List.map_cons, List.nodup_cons] at hm
    rcases List.mem_cons.1 hx with rfl | hx' <;>
      rcases List.mem_cons.1 hy with rfl | hy'
    · rfl
    · exact absurd (List.mem_map.2 ⟨y, hy', hk.symm⟩) hm.1
    · exact absurd (List.mem_map.2 ⟨x, hx', hk⟩) hm.1
    · exact ih hm.2 hx' hy'

theorem dictInsert_mem_self {m : PSet} {k v : String} (hm : NodupKeys m)
    (hmem : (k, v) ∈ m) : dictInsert m k v = m := by
  rw [dictInsert, if_pos (by rw [hasKey_eq_true_iff]; exact ⟨(k, v), hmem, rfl⟩)]
  have : ∀ p ∈ m, (if p.1 = k then (k, v) else p) = p := by
    intro p hp
    by_cases hpk : p.1 = k
    · rw [if_pos hpk]
      exact (keyUnique hm hp hmem (by simpa using hpk)).symm
    · rw [if_neg hpk]
  calc m.map (fun p => if p.1 = k then (k, v) else p)
      = m.map id := List.map_congr_left this
    _ = m := List.map_id m

theorem keys_dictInsert_of_hasKey_true {m : PSet} {k : String} (v : String)
    (h : hasKey m k = true) :
    (dictInsert m k v).map Prod.fst = m.map Prod.fst := by
  rw [dictInsert, if_pos (by simp [h]), List.map_map]
  apply List.map_congr_left
  intro p _
  by_cases hpk : p.1 = k
  · simp [hpk]
  · simp [hpk]

theorem dictInsert_nodupKeys {m : PSet} (k v : String) (hm : NodupKeys m) :
    NodupKeys (dictInsert m k v) := by
  by_cases h : hasKey m k = true
  · rw [NodupKeys, keys_dictInsert_of_hasKey_true v h]; exact hm
  · rw [dictInsert, if_neg (by simpa using h)]
    have hnk : k ∉ m.map Prod.fst := by
      rw [Bool.not_eq_true] at h
      rw [hasKey_eq_false_iff] at h
      intro hc
      rcases List.mem_map.1 hc with ⟨x, hx, hk⟩
      exact h x hx hk
    rw [NodupKeys, List.map_append]
    simp only [List.map_cons, List.map_nil]
    rw [List.nodup_append]
    refine ⟨hm, List.nodup_singleton k, ?_⟩
    intro a ha hb
    rw [List.mem_singleton] at hb
    subst hb
    exact hnk ha

theorem lookupKey_map_assign_self (m : PSet) (k v : String) :
    lookupKey (m.map (fun p => if p.1 = k then (k, v) else p)) k
      = if hasKey m k = true then some v else none := by
  induction m with
  | nil => simp [lookupKey, hasKey]
  | cons p m ih =>
    by_cases h : p.1 = k
    · simp [lookupKey, hasKey, h]
    · simp only [List.map_cons, lookupKey, if_neg h, hasKey, ih]

theorem lookupKey_dictInsert_self (m : PSet) (k v : String) :
    lookupKey (dictInsert m k v) k = some v := by
  by_cases h : hasKey m k = true
  · rw [dictInsert, if_pos (by simp [h]), lookupKey_map_assign_self, if_pos h]
  · rw [dictInsert, if_neg (by simpa using h), lookupKey_append]
    rw [Bool.not_eq_true] at h
    rw [lookupKey_eq_none_of_hasKey_false h]
    simp [lookupKey]

theorem lookupKey_dictInsert_ne (m : PSet) {k' k : String} (w : String)
    (h : k' ≠ k) : lookupKey (dictInsert m k' w) k = lookupKey m k := by
  by_cases hh : hasKey m k' = true
  · rw [dictInsert, if_pos (by simp [hh])]
    induction m with
    | nil => simp
    | cons p m ih =>
      by_cases hp : p.1 = k'
      · have hpk : p.1 ≠ k := hp ▸ (hp ▸ h)
        simp only [List.map_cons, if_pos hp, lookupKey, if_neg h, if_neg hpk]
        by_cases hm' : hasKey m k' = true
        · exact ih hm'
        · rw [Bool.not_eq_true] at hm'
          rw [hasKey_eq_false_iff] at hm'
          have : m.map (fun p => if p.1 = k' then (k', w) else p) = m := by
            calc m.map (fun p => if p.1 = k' then (k', w) else p)
                = m.map id := List.map_congr_left (by
                    intro x hx
                    rw [if_neg (hm' x hx)]
                    rfl)
              _ = m := List.map_id m
          rw [this]
      · simp only [List.map_cons, if_neg hp, lookupKey]
        by_cases hpk : p.1 = k
        · rw [if_pos hpk, if_pos hpk]
        · rw [if_neg hpk, if_neg hpk]
          by_cases hm' : hasKey m k' = true
          · exact ih hm'
          · rw [Bool.not_eq_true] at hm'
            rw [hasKey_eq_false_iff] at hm'
            have : m.map (fun p => if p.1 = k' then (k', w) else p) = m := by
              calc m.map (fun p => if p.1 = k' then (k', w) else p)
                  = m.map id := List.map_congr_left (by
                      intro x hx
                      rw [if_neg (hm' x hx)]
                      rfl)
                _ = m := List.map_id m
            rw [this]
  · rw [dictInsert, if_neg (by simpa using hh), lookupKey_append]
    cases hl : lookupKey m k with
    | some v => simp
    | none => simp [lookupKey, if_neg h]

theorem dictUpdate_fresh :
    ∀ (g m : PSet), NodupKeys g → (∀ x ∈ g, hasKey m x.1 = false) →
      dictUpdate m g = m ++ g := by
  intro g
  induction g with
  | nil => intro m _ _; simp [dictUpdate]
  | cons x g ih =>
    intro m hnd hfresh
    rw [NodupKeys, List.map_cons, List.nodup_cons] at hnd
    have step : dictUpdate m (x :: g) = dictUpdate (m ++ [x]) g := by
      rw [dictUpdate, List.foldl_cons, dictInsert_of_hasKey_false x.2
        (hfresh x (List.mem_cons_self x g))]
      rfl
    rw [step, ih (m ++ [x]) hnd.2]
    · simp
    · intro y hy
      rw [hasKey_append, hfresh y (List.mem_cons_of_mem x hy), Bool.false_or]
      rw [hasKey_eq_false_iff]
      intro z hz
      rcases List.mem_singleton.1 hz with rfl
      intro hzy
      exact hnd.1 (List.mem_map.2 ⟨y, hy, hzy.symm⟩)

theorem foldl_keep_self (step : PSet → String × String → PSet)
    (hstep : ∀ m x, step m x = m ∨ step m x = dictInsert m x.1 x.2) :
    ∀ (sub m : PSet), NodupKeys m → (∀ x ∈ sub, x ∈ m) →
      sub.foldl step m = m := by
  intro sub
  induction sub with
  | nil => intro m _ _; rfl
  | cons x xs ih =>
    intro m hm hmem
    have hx : step m x = m := by
      rcases hstep m x with h | h
      · exact h
      · rw [h]
        exact dictInsert_mem_self hm (by
          have := hmem x (List.mem_cons_self x xs)
          simpa using this)
    rw [List.foldl_cons, hx]
    exact ih m hm (fun y hy => hmem y (List.mem_cons_of_mem x hy))

theorem stdStep_nodup (m : PSet) (l : String) (hm : NodupKeys m) :
    NodupKeys (stdStep m l) := by
  rw [stdStep]
  cases stdParseLine l with
  | none => exact hm
  | some kv => exact dictInsert_nodupKeys kv.1 kv.2 hm

theorem parse_standard_vmt_nodup (t : String) : NodupKeys (parse_standard_vmt t) := by
  rw [parse_standard_vmt]
  exact foldl_invariant stdStep NodupKeys stdStep_nodup (linesOf t) [] (by simp [NodupKeys])

theorem patchBlockStep_nodup (kw : String) (s : Bool × PSet) (l : String)
    (hs : NodupKeys s.2) : NodupKeys (patchBlockStep kw s l).2 := by
  rw [patchBlockStep]
  dsimp only
  split
  · exact hs
  · split
    · exact hs
    · split
      · split
        · exact dictInsert_nodupKeys _ _ hs
        · exact hs
      · exact hs

theorem parse_patch_vmt_nodup (t : String) : NodupKeys (parse_patch_vmt t) := by
  rw [parse_patch_vmt]
  refine foldl_invariant (patchBlockStep "insert") (fun s => NodupKeys s.2)
    (fun a b ha => patchBlockStep_nodup "insert" a b ha) (linesOf t) _ ?_
  exact foldl_invariant (patchBlockStep "replace") (fun s => NodupKeys s.2)
    (fun a b ha => patchBlockStep_nodup "replace" a b ha) (linesOf t) _ (by simp [NodupKeys])

theorem parse_vmt_params_nodup (t : String) : NodupKeys (parse_vmt_params t) := by
  rw [parse_vmt_params]
  split
  · exact parse_patch_vmt_nodup t
  · exact parse_standard_vmt_nodup t

theorem parse_vmt_parameters_nodup (t : String) : NodupKeys (parse_vmt_parameters t) := by
  rw [parse_vmt_parameters]
  exact foldl_invariant stdStep NodupKeys stdStep_nodup (linesOf t) [] (by simp [NodupKeys])

theorem smart_merge_params_step_or (existing : PSet) (pbr : List String)
    (m : PSet) (x : String × String) :
    (if strMem (toLowerStr x.1) pbr then dictInsert m x.1 x.2
     else if hasKey existing x.1 then m
     else dictInsert m x.1 x.2) = m ∨
    (if strMem (toLowerStr x.1) pbr then dictInsert m x.1 x.2
     else if hasKey existing x.1 then m
     else dictInsert m x.1 x.2) = dictInsert m x.1 x.2 := by
  by_cases h1 : strMem (toLowerStr x.1) pbr
  · right; rw [if_pos h1]
  · by_cases h2 : hasKey existing x.1
    · left; rw [if_neg h1, if_pos h2]
    · right; rw [if_neg h1, if_neg h2]

/-!
## The claims
-/

/-- Claim C1 (confirmed): idempotent merge.  For every document text `t`
and every classification context (here the material base name, the code's
classifier tables being fixed), merging the parse of `t` with itself as
both existing and generated yields exactly the same parameter set, for
both the single-file smart merge and the `merge_vmt_files` merge. -/
theorem smart_merge_idempotent (t name : String) :
    smart_merge_params (parse_vmt_params t) (parse_vmt_params t) name
        = parse_vmt_params t ∧
    merge_vmt_params (parse_vmt_parameters t) (parse_vmt_parameters t)
        = parse_vmt_parameters t := by
  constructor
  · rw [smart_merge_params]
    exact foldl_keep_self _
      (smart_merge_params_step_or (parse_vmt_params t)
        (identify_pbr_parameters (parse_vmt_params t) (parse_vmt_params t) name))
      (parse_vmt_params t) (parse_vmt_params t)
      (parse_vmt_params_nodup t) (fun x hx => hx)
  · rw [merge_vmt_params]
    refine foldl_keep_self _ ?_ (parse_vmt_parameters t) (parse_vmt_parameters t)
      (parse_vmt_parameters_nodup t) (fun x hx => hx)
    intro m x
    by_cases h : strMem (toLowerStr x.1) mergeVmtPbrParams
    · right; rw [if_pos h]
    · left; rw [if_neg h]

/-- Claim C5 (confirmed): concrete scenario A.  Merging the existing
standard parameters with the generated ones (the code's classifier grants
basetexture and phong through its semantic keyword table; the base name
weapon_ak47 occurs in no value) yields exactly the ordered list with the
derived key overwritten in place, the custom key untouched in position,
and the new key appended. -/
theorem scenario_a_merge :
    smart_merge_params [("$basetexture", "old/path"), ("$surfaceprop", "metal")]
        [("$basetexture", "new/path"), ("$phong", "1")] "weapon_ak47"
      = [("$basetexture", "new/path"), ("$surfaceprop", "metal"), ("$phong", "1")] := by
  decide

/-- Claim C4, counterexample: shape preservation fails for the single-file
merge.  The existing document is a Patch (the code itself classifies it
so), yet `smart_merge_vmt` emits a Standard VertexLitGeneric block: the
merged output is no longer patch-shaped and the include path is gone. -/
theorem shape_not_preserved_counterexample :
    vmtIsPatch scenBExisting = true ∧
    vmtIsPatch (smart_merge_vmt scenBExisting scenBGenerated "x") = false ∧
    smart_merge_vmt scenBExisting scenBGenerated "x"
      = "\"VertexLitGeneric\"\n\x7b\n\t\"$basetexture\"\t\t\"x/new\"\n\x7d" := by
  decide

/-- Claim C4 (amended): scenario B holds on the batch path.  With patch
format enabled, the batch merge of the scenario-B existing patch document
against the generated replacement keeps the entire patch shape, retains
the include path verbatim, and rewrites the replace section's basetexture
to x/new (filesystem empty: the include target need not exist; fuel 3
suffices for the single include hop). -/
theorem patch_scenario_b :
    smart_merge_batch_vmt true [] 3 scenBExisting scenBGenerated "x" "mats/x.vmt"
      = scenBExpected := by
  decide

/-- Claim C3, counterexample: custom preservation fails as stated.  The
key is absent from every built-in derived table and its existing value
does not contain the material base name mymat, yet the merge overwrites
it, because the GENERATED value contains the base name (classifier rule 2). -/
theorem custom_overwrite_counterexample :
    smart_merge_params [("$decal", "custom/path")] [("$decal", "mymat_decal")] "mymat"
        = [("$decal", "mymat_decal")] ∧
    (pbrSemanticKeywords.any (fun kw => occursIn kw.data (toLowerStr "$decal").data)) = false ∧
    strMem (toLowerStr "$decal") commonPbrParams = false ∧
    occursIn (toLowerStr "mymat").data (toLowerStr "custom/path").data = false := by
  decide

/-- Claim C6, counterexample: new-key addition fails for
`merge_vmt_files`.  The generated key translucent is absent from the
existing set, but because it is not in that function's hardcoded PBR list
it is silently dropped from the merged result. -/
theorem merge_vmt_files_drops_new_key :
    merge_vmt_params [("$surfaceprop", "metal")] [("$translucent", "1")]
        = [("$surfaceprop", "metal")] ∧
    hasKey [("$surfaceprop", "metal")] "$translucent" = false ∧
    strMem (toLowerStr "$translucent") mergeVmtPbrParams = false ∧
    lookupKey (merge_vmt_params [("$surfaceprop", "metal")] [("$translucent", "1")])
        "$translucent" = none := by
  decide

/-- Claim C7, counterexample: parsing the malformed document (the spec's
missing-closing-brace input) does not fail.  The line-oriented parser is
total: on the one-line form it returns the empty parameter set, and on the
line-broken form of the same text it happily extracts the parameter; no
MalformedDocument error exists anywhere in the engine. -/
theorem malformed_parse_counterexample :
    parse_vmt_params malformedDoc = [] ∧
    parse_vmt_params "\"Foo\"\n\x7b\n\"$a\" \"1\"" = [("$a", "1")] := by
  decide

/-- Claim C9, counterexample: the key-uniqueness invariant under
case-insensitive comparison fails.  Merging an existing set holding
BaseTexture in mixed case with a generated lowercase basetexture appends a
second, differently-cased copy of the same case-insensitive key. -/
theorem case_duplicate_counterexample :
    smart_merge_params [("$BaseTexture", "a")] [("$basetexture", "b")] "m"
        = [("$BaseTexture", "a"), ("$basetexture", "b")] ∧
    toLowerStr "$BaseTexture" = toLowerStr "$basetexture" ∧
    "$BaseTexture" ≠ "$basetexture" := by
  decide

/-- Claim C8, counterexample: include opacity fails for the batch patch
parser.  Two filesystems that differ only in the contents of the included
base document base.vmt give different parsed parameter sets for the very
same patch document text: `_load_include_file` opens and flattens the
include target. -/
theorem include_dependence_counterexample :
    parse_patch_vmt_params true [("base.vmt", baseWood)] 3 patchIncText ""
        = [("$surfaceprop", "wood"), ("$basetexture", "x/new")] ∧
    parse_patch_vmt_params true [("base.vmt", baseMetal)] 3 patchIncText ""
        = [("$surfaceprop", "metal"), ("$basetexture", "x/new")] ∧
    parse_patch_vmt_params true [("base.vmt", baseWood)] 3 patchIncText ""
        ≠ parse_patch_vmt_params true [("base.vmt", baseMetal)] 3 patchIncText "" := by
  decide

theorem strMem_iff_mem (x : String) (l : List String) : strMem x l = true ↔ x ∈ l := by
  induction l with
  | nil => simp [strMem]
  | cons y l ih =>
    by_cases h : y = x
    · simp [strMem, h]
    · simp only [strMem, if_neg h, ih, List.mem_cons]
      constructor
      · exact Or.inr
      · rintro (rfl | hx)
        · exact absurd rfl h
        · exact hx

theorem strMem_eq_false_iff (x : String) (l : List String) :
    strMem x l = false ↔ x ∉ l := by
  rw [← strMem_iff_mem]
  cases strMem x l <;> simp

theorem not_pbr_of_conditions (e g : PSet) (name k : String)
    (h1 : ∀ x ∈ e, toLowerStr x.1 = toLowerStr k →
      occursIn (toLowerStr name).data (toLowerStr x.2).data = false)
    (h2 : ∀ x ∈ g, toLowerStr x.1 = toLowerStr k →
      occursIn (toLowerStr name).data (toLowerStr x.2).data = false)
    (h3 : ∀ kw ∈ pbrSemanticKeywords, occursIn kw.data (toLowerStr k).data = false)
    (h4 : strMem (toLowerStr k) commonPbrParams = false) :
    strMem (toLowerStr k) (identify_pbr_parameters e g name) = false := by
  rw [strMem_eq_false_iff]
  intro hmem
  rw [identify_pbr_parameters] at hmem
  simp only [List.mem_append, List.mem_map, List.mem_filter] at hmem
  rcases hmem with ((⟨x, ⟨hx, hocc⟩, hkey⟩ | ⟨x, ⟨hx, hocc⟩, hkey⟩)
    | ⟨x, ⟨hx, hocc⟩, hkey⟩) | ⟨x, ⟨hx, hocc⟩, hkey⟩
  · rw [h1 x hx hkey] at hocc
    exact Bool.noConfusion hocc
  · rw [h2 x hx hkey] at hocc
    exact Bool.noConfusion hocc
  · rcases List.any_eq_true.1 hocc with ⟨kw, hkw, hkwo⟩
    rw [hkey, h3 kw hkw] at hkwo
    exact Bool.noConfusion hkwo
  · rw [hkey] at hocc
    rw [h4] at hocc
    exact Bool.noConfusion hocc

theorem smart_merge_lookup_invariant (existing : PSet) (pbr : List String)
    (k v : String)
    (hpbr : strMem (toLowerStr k) pbr = false)
    (hex : hasKey existing k = true) :
    ∀ (sub m : PSet), lookupKey m k = some v →
      lookupKey
        (sub.foldl
          (fun merged p =>
            if strMem (toLowerStr p.1) pbr then dictInsert merged p.1 p.2
            else if hasKey existing p.1 then merged
            else dictInsert merged p.1 p.2)
          m) k = some v := by
  intro sub
  induction sub with
  | nil => intro m hm; exact hm
  | cons x xs ih =>
    intro m hm
    rw [List.foldl_cons]
    apply ih
    by_cases hxk : x.1 = k
    · rw [if_neg (by rw [hxk]; simp [hpbr]), if_pos (by rw [hxk]; exact hex)]
      exact hm
    · by_cases hp : strMem (toLowerStr x.1) pbr
      · rw [if_pos hp, lookupKey_dictInsert_ne m x.2 hxk]
        exact hm
      · by_cases he : hasKey existing x.1
        · rw [if_neg hp, if_pos he]
          exact hm
        · rw [if_neg hp, if_neg he, lookupKey_dictInsert_ne m x.2 hxk]
          exact hm

/-- Claim C3 (amended): custom preservation.  A key bound in the existing
set is left with exactly its existing value provided no existing and no
generated entry sharing its lowercase form has a value containing the
material base name (the counterexample forces the generated-side
condition), and its lowercase form matches none of the built-in semantic
keywords and none of the common PBR parameters. -/
theorem custom_preservation_amended (e g : PSet) (name k v : String)
    (hek : lookupKey e k = some v)
    (h1 : ∀ x ∈ e, toLowerStr x.1 = toLowerStr k →
      occursIn (toLowerStr name).data (toLowerStr x.2).data = false)
    (h2 : ∀ x ∈ g, toLowerStr x.1 = toLowerStr k →
      occursIn (toLowerStr name).data (toLowerStr x.2).data = false)
    (h3 : ∀ kw ∈ pbrSemanticKeywords, occursIn kw.data (toLowerStr k).data = false)
    (h4 : strMem (toLowerStr k) commonPbrParams = false) :
    lookupKey (smart_merge_params e g name) k = some v := by
  rw [smart_merge_params]
  exact smart_merge_lookup_invariant e
    (identify_pbr_parameters e g name) k v
    (not_pbr_of_conditions e g name k h1 h2 h3 h4)
    (hasKey_of_lookupKey_some hek) g e hek

theorem smart_merge_lookup_skip (existing : PSet) (pbr : List String) (k : String) :
    ∀ (sub : PSet), (∀ x ∈ sub, x.1 ≠ k) → ∀ (m : PSet) (o : Option String),
      lookupKey m k = o →
      lookupKey
        (sub.foldl
          (fun merged p =>
            if strMem (toLowerStr p.1) pbr then dictInsert merged p.1 p.2
            else if hasKey existing p.1 then merged
            else dictInsert merged p.1 p.2)
          m) k = o := by
  intro sub
  induction sub with
  | nil => intro _ m o hm; exact hm
  | cons x xs ih =>
    intro hne m o hm
    rw [List.foldl_cons]
    apply ih (fun y hy => hne y (List.mem_cons_of_mem x hy))
    have hxk : x.1 ≠ k := hne x (List.mem_cons_self x xs)
    by_cases hp : strMem (toLowerStr x.1) pbr
    · rw [if_pos hp, lookupKey_dictInsert_ne m x.2 hxk]
      exact hm
    · by_cases he : hasKey existing x.1
      · rw [if_neg hp, if_pos he]
        exact hm
      · rw [if_neg hp, if_neg he, lookupKey_dictInsert_ne m x.2 hxk]
        exact hm

/-- Claim C6 (amended): new-key addition holds for the single-file smart
merge.  Any generated key absent from the existing set under
case-insensitive comparison appears in the merged result bound to the
generated value.  (`merge_vmt_files` violates the claim: the accompanying
counterexample shows it drops new keys outside its hardcoded PBR list.) -/
theorem new_key_addition_smart_merge (e g : PSet) (name k v : String)
    (hnd : NodupKeys g) (hkg : (k, v) ∈ g)
    (habs : ∀ x ∈ e, toLowerStr x.1 ≠ toLowerStr k) :
    lookupKey (smart_merge_params e g name) k = some v := by
  have habs' : ∀ x ∈ e, x.1 ≠ k := by
    intro x hx hxk
    exact habs x hx (by rw [hxk])
  have heNone : lookupKey e k = none :=
    lookupKey_eq_none_of_hasKey_false ((hasKey_eq_false_iff e k).2 habs')
  have heKey : hasKey e k = false := (hasKey_eq_false_iff e k).2 habs'
  rcases List.append_of_mem hkg with ⟨g1, g2, rfl⟩
  have hkeys : ((g1 ++ (k, v) :: g2).map Prod.fst).Nodup := hnd
  rw [List.map_append, List.map_cons] at hkeys
  rw [List.nodup_append] at hkeys
  have hk1 : ∀ x ∈ g1, x.1 ≠ k := by
    intro x hx hxk
    exact hkeys.2.2 (List.mem_map.2 ⟨x, hx, hxk⟩) (List.mem_cons_self _ _)
  have hk2 : ∀ x ∈ g2, x.1 ≠ k := by
    intro x hx hxk
    have := hkeys.2.1
    rw [List.nodup_cons] at this
    exact this.1 (List.mem_map.2 ⟨x, hx, hxk⟩)
  rw [smart_merge_params, List.foldl_append, List.foldl_cons]
  apply smart_merge_lookup_skip e _ k g2 hk2
  have hmid : lookupKey
      (g1.foldl
        (fun merged p =>
          if strMem (toLowerStr p.1) (identify_pbr_parameters e (g1 ++ (k, v) :: g2) name)
            then dictInsert merged p.1 p.2
          else if hasKey e p.1 then merged
          else dictInsert merged p.1 p.2)
        e) k = none :=
    smart_merge_lookup_skip e _ k g1 hk1 e none heNone
  by_cases hp : strMem (toLowerStr k) (identify_pbr_parameters e (g1 ++ (k, v) :: g2) name)
  · rw [if_pos hp]
    exact lookupKey_dictInsert_self _ k v
  · rw [if_neg hp, if_neg (by rw [heKey]; simp)]
    exact lookupKey_dictInsert_self _ k v

/-- Claim C7 (amended): malformed input is tolerated, not rejected.  The
parse of the spec's malformed document is the empty parameter set (no
error exists: the parser is total), and the merge then behaves exactly as
fresh generation at the parameter level: every generated parameter is
taken unchanged. -/
theorem malformed_treated_as_empty (g : PSet) (name : String) (hnd : NodupKeys g) :
    smart_merge_params (parse_vmt_params malformedDoc) g name = g := by
  have hmal : parse_vmt_params malformedDoc = [] := by decide
  rw [hmal, smart_merge_params]
  have hstep : (fun (merged : PSet) (p : String × String) =>
      if strMem (toLowerStr p.1) (identify_pbr_parameters [] g name)
        then dictInsert merged p.1 p.2
      else if hasKey [] p.1 then merged
      else dictInsert merged p.1 p.2)
      = fun (merged : PSet) (p : String × String) => dictInsert merged p.1 p.2 := by
    funext merged p
    by_cases hp : strMem (toLowerStr p.1) (identify_pbr_parameters [] g name)
    · rw [if_pos hp]
    · rw [if_neg hp, if_neg (by rw [hasKey]; simp)]
  rw [hstep]
  have := dictUpdate_fresh g [] hnd (fun x _ => by rw [hasKey])
  rw [dictUpdate] at this
  rw [this]
  simp

/-- Claim C9 (amended): key uniqueness holds under exact (case-sensitive)
comparison, the discipline the Python dicts actually enforce: every parse
result has pairwise distinct exact keys, and the smart merge preserves
that invariant.  (Case-insensitive uniqueness fails: see the
counterexample.) -/
theorem exact_key_uniqueness (t : String) (e g : PSet) (name : String)
    (hnd : NodupKeys e) :
    NodupKeys (parse_vmt_params t) ∧ NodupKeys (smart_merge_params e g name) := by
  constructor
  · exact parse_vmt_params_nodup t
  · rw [smart_merge_params]
    refine foldl_invariant _ NodupKeys ?_ g e hnd
    intro m x hm
    by_cases hp : strMem (toLowerStr x.1) (identify_pbr_parameters e g name)
    · rw [if_pos hp]
      exact dictInsert_nodupKeys x.1 x.2 hm
    · by_cases he : hasKey e x.1
      · rw [if_neg hp, if_pos he]
        exact hm
      · rw [if_neg hp, if_neg he]
        exact dictInsert_nodupKeys x.1 x.2 hm

theorem leadsWith_pair {a b : Char} {l : Chars} (h : leadsWith [a, b] l = true) :
    ∃ r, l = a :: b :: r := by
  cases l with
  | nil => simp [leadsWith] at h
  | cons c cs =>
    cases cs with
    | nil =>
      by_cases hac : a = c
      · simp [leadsWith, hac] at h
      · simp [leadsWith, hac] at h
    | cons d ds =>
      by_cases hac : a = c
      · by_cases hbd : b = d
        · exact ⟨ds, by rw [hac, hbd]⟩
        · simp [leadsWith, hac, hbd] at h
      · simp [leadsWith, hac] at h

theorem leadsWith_cons_ne {a b : Char} (h : a ≠ b) (as bs : Chars) :
    leadsWith (a :: as) (b :: bs) = false := by
  simp [leadsWith, h]

theorem ccount_eq_zero_of_cmem_false {c : Char} {l : Chars}
    (h : cmem c l = false) : ccount c l = 0 := by
  induction l with
  | nil => rfl
  | cons d l ih =>
    rw [cmem] at h
    by_cases hd : d = c
    · rw [if_pos hd] at h
      exact Bool.noConfusion h
    · rw [if_neg hd] at h
      rw [ccount, if_neg hd, ih h]

theorem cmem_of_ccount_pos {c : Char} {l : Chars}
    (h : 0 < ccount c l) : cmem c l = true := by
  induction l with
  | nil => simp [ccount] at h
  | cons d l ih =>
    by_cases hd : d = c
    · rw [cmem, if_pos hd]
    · rw [ccount, if_neg hd] at h
      rw [cmem, if_neg hd]
      exact ih (by simpa using h)

theorem splitCh_length (sep : Char) (l : Chars) :
    (splitCh sep l).length = ccount sep l + 1 := by
  induction l with
  | nil => rfl
  | cons c rest ih =>
    by_cases h : c = sep
    · rw [splitCh, if_pos h, ccount, if_pos h, List.length_cons, ih]
      omega
    · rw [splitCh, if_neg h, ccount, if_neg h]
      cases hs : splitCh sep rest with
      | nil => rw [hs] at ih; simp at ih
      | cons hd tl =>
        rw [hs, List.length_cons] at ih
        simp only [List.length_cons]
        omega

/-- Claim C10 (confirmed): patch-flattening priority.  For any state of the
`parse_patch_vmt_params` line loop and any parameter line (no braces,
quote-dollar head, parsing to a nonempty name and value): inside a replace
section the line always assigns, overwriting any earlier binding of the
key — including one loaded from the included base file — so the key ends
bound to the new value; inside an insert section the line is added only
when the key is not already bound, and never overwrites an existing
binding. -/
theorem patch_replace_insert_priority (loader : String → PSet) (ps : PSet)
    (b : Int) (raw n v : String)
    (h1 : strStartsWith (pyStrip raw) "\"$" = true)
    (h2 : _parse_vmt_line (pyStrip raw) = some (n, v))
    (h3 : n ≠ "") (h4 : v ≠ "")
    (h6 : containsChar '}' (pyStrip raw) = false) :
    (patchStep loader { params := ps, sec := some "replace", brace := b } raw).params
        = dictInsert ps n v ∧
    lookupKey (patchStep loader
        { params := ps, sec := some "replace", brace := b } raw).params n = some v ∧
    (patchStep loader { params := ps, sec := some "insert", brace := b } raw).params
        = (if hasKey ps n = true then ps else ps ++ [(n, v)]) := by
  obtain ⟨r, hdata⟩ := leadsWith_pair (by
    have : ("\"$").data = ['"', '$'] := rfl
    rw [strStartsWith, this] at h1
    exact h1)
  have hnempty : ¬(pyStrip raw = "") := by
    intro h
    rw [h] at hdata
    exact List.noConfusion hdata
  have hslash : strStartsWith (pyStrip raw) "//" = false := by
    rw [strStartsWith, show ("//").data = ['/', '/'] from rfl, hdata]
    exact leadsWith_cons_ne (by decide) _ _
  have hcond1 : ¬(pyStrip raw = "" ∨ strStartsWith (pyStrip raw) "//" = true) := by
    rintro (h | h)
    · exact hnempty h
    · rw [hslash] at h
      exact Bool.noConfusion h
  have hcond2 : ¬(containsChar '}' (pyStrip raw) = true) := by
    rw [h6]
    simp
  have hlowdata : (toLowerStr (pyStrip raw)).data
      = '"' :: '$' :: r.map Char.toLower := by
    show (pyStrip raw).data.map Char.toLower = _
    rw [hdata]
    rfl
  have hpatch : strStartsWith (toLowerStr (pyStrip raw)) "patch" = false := by
    rw [strStartsWith, show ("patch").data = ['p', 'a', 't', 'c', 'h'] from rfl, hlowdata]
    exact leadsWith_cons_ne (by decide) _ _
  have hcond3 : ∀ bb : Int, ¬(strStartsWith (toLowerStr (pyStrip raw)) "patch" = true ∧ bb = 0) := by
    rintro bb ⟨hp, _⟩
    rw [hpatch] at hp
    exact Bool.noConfusion hp
  have hincl : strStartsWith (pyStrip raw) "include" = false := by
    rw [strStartsWith, show ("include").data = ['i', 'n', 'c', 'l', 'u', 'd', 'e'] from rfl,
      hdata]
    exact leadsWith_cons_ne (by decide) _ _
  have hcond4 : ¬(strStartsWith (pyStrip raw) "include" = true
      ∧ containsChar '"' (pyStrip raw) = true) := by
    rintro ⟨hi, _⟩
    rw [hincl] at hi
    exact Bool.noConfusion hi
  have hcond5 : ¬(toLowerStr (pyStrip raw) = "insert" ∨ toLowerStr (pyStrip raw) = "replace") := by
    rintro (h | h) <;>
    · have hd := congrArg String.data h
      rw [hlowdata] at hd
      exact absurd (List.head_eq_of_cons_eq hd) (by decide)
  have hquote : containsChar '"' (strDrop 2 (pyStrip raw)) = true := by
    have hlen : 4 ≤ (splitQuotes (pyStrip raw)).length := by
      by_cases hl : 4 ≤ (splitQuotes (pyStrip raw)).length
      · exact hl
      · rw [_parse_vmt_line] at h2
        simp only [if_neg hl] at h2
        exact Option.noConfusion h2
    have hcnt : 3 ≤ ccount '"' (pyStrip raw).data := by
      have := splitCh_length '"' (pyStrip raw).data
      rw [splitQuotes, List.length_map] at hlen
      omega
    have hcr : 0 < ccount '"' r := by
      rw [hdata] at hcnt
      rw [ccount, if_pos rfl, ccount, if_neg (by decide)] at hcnt
      omega
    show cmem '"' (strDrop 2 (pyStrip raw)).data = true
    have : (strDrop 2 (pyStrip raw)).data = r := by
      show (pyStrip raw).data.drop 2 = r
      rw [hdata]
      rfl
    rw [this]
    exact cmem_of_ccount_pos hcr
  have hcond6 : ∀ o : Option String, o.isSome = true →
      (o.isSome = true ∧ strStartsWith (pyStrip raw) "\"$" = true
        ∧ containsChar '"' (strDrop 2 (pyStrip raw)) = true) :=
    fun o ho => ⟨ho, h1, hquote⟩
  have hcond7 : ¬(n = "" ∨ v = "") := by
    rintro (h | h)
    · exact h3 h
    · exact h4 h
  have e1 : (patchStep loader { params := ps, sec := some "replace", brace := b } raw).params
      = dictInsert ps n v := by
    rw [patchStep]
    simp only [if_neg hcond1, if_neg hcond2, if_neg (hcond3 _), if_neg hcond4,
      if_neg hcond5, if_pos (hcond6 (some "replace") rfl), h2, if_neg hcond7]
    simp
  refine ⟨e1, ?_, ?_⟩
  · rw [e1]
    exact lookupKey_dictInsert_self ps n v
  · rw [patchStep]
    by_cases hK : hasKey ps n = true
    · rw [if_pos hK]
      simp only [if_neg hcond1, if_neg hcond2, if_neg (hcond3 _), if_neg hcond4,
        if_neg hcond5, if_pos (hcond6 (some "insert") rfl), h2, if_neg hcond7]
      simp [hK]
    · have hKf : hasKey ps n = false := by
        cases hc : hasKey ps n
        · rfl
        · exact absurd hc hK
      rw [if_neg hK]
      simp only [if_neg hcond1, if_neg hcond2, if_neg (hcond3 _), if_neg hcond4,
        if_neg hcond5, if_pos (hcond6 (some "insert") rfl), h2, if_neg hcond7]
      have hdi : dictInsert ps n v = ps ++ [(n, v)] := dictInsert_of_hasKey_false v hKf
      simp [hKf, hdi]

theorem patchStep_loader_irrel (L1 L2 : String → PSet) (s : PatchState) (raw : String)
    (hni : ¬(strStartsWith (pyStrip raw) "include" = true
      ∧ containsChar '"' (pyStrip raw) = true)) :
    patchStep L1 s raw = patchStep L2 s raw := by
  rw [patchStep, patchStep]
  dsimp only
  by_cases h0 : pyStrip raw = "" ∨ strStartsWith (pyStrip raw) "//" = true
  · rw [if_pos h0, if_pos h0]
  rw [if_neg h0, if_neg h0]
  by_cases hb : containsChar '}' (pyStrip raw) = true
  · rw [if_pos hb, if_pos hb]
  rw [if_neg hb, if_neg hb]
  by_cases hp : strStartsWith (toLowerStr (pyStrip raw)) "patch" = true
      ∧ s.brace + (countChar '{' (pyStrip raw) : Int) = 0
  · rw [if_pos hp, if_pos hp]
  rw [if_neg hp, if_neg hp, if_neg hni, if_neg hni]

theorem foldl_patchStep_irrel (L1 L2 : String → PSet) :
    ∀ (lines : List String),
      (∀ l ∈ lines, ¬(strStartsWith (pyStrip l) "include" = true
        ∧ containsChar '"' (pyStrip l) = true)) →
      ∀ s : PatchState,
        lines.foldl (patchStep L1) s = lines.foldl (patchStep L2) s := by
  intro lines
  induction lines with
  | nil => intro _ s; rfl
  | cons l ls ih =>
    intro h s
    rw [List.foldl_cons, List.foldl_cons,
      patchStep_loader_irrel L1 L2 s l (h l (List.mem_cons_self l ls))]
    exact ih (fun x hx => h x (List.mem_cons_of_mem l hx)) _

/-- Claim C8 (amended): include opacity holds exactly for parses that see
no include directive.  The single-file `parse_patch_vmt` never opens the
include target at all; for the batch `parse_patch_vmt_params`, whenever
the patch document's lines contain no include directive, any two runs —
over arbitrary filesystems, base directories, enabled flags and positive
fuels — produce identical parameter sets.  (With an include directive the
claim fails: see the counterexample.) -/
theorem patch_parse_opacity_no_include (e1 e2 : Bool) (fs1 fs2 : FS)
    (n1 n2 : Nat) (content bd1 bd2 : String)
    (h : ∀ l ∈ linesOf content, ¬(strStartsWith (pyStrip l) "include" = true
      ∧ containsChar '"' (pyStrip l) = true)) :
    parse_patch_vmt_params e1 fs1 (n1 + 1) content bd1
      = parse_patch_vmt_params e2 fs2 (n2 + 1) content bd2 := by
  rw [parse_patch_vmt_params, parse_patch_vmt_params]
  rw [foldl_patchStep_irrel
    (fun ip => _load_include_file e1 fs1 n1 ip bd1)
    (fun ip => _load_include_file e2 fs2 n2 ip bd2)
    (linesOf content) h]

theorem strMk_data (s : String) : String.mk s.data = s := by
  cases s
  rfl

theorem strData_append (s t : String) : (s ++ t).data = s.data ++ t.data := by
  cases s
  cases t
  rfl

theorem cmem_append (c : Char) (a b : Chars) :
    cmem c (a ++ b) = (cmem c a || cmem c b) := by
  induction a with
  | nil => simp [cmem]
  | cons d l ih =>
    by_cases h : d = c <;> simp [cmem, h, ih]

theorem splitCh_ne_nil (sep : Char) (l : Chars) : splitCh sep l ≠ [] := by
  induction l with
  | nil => simp [splitCh]
  | cons c rest ih =>
    by_cases h : c = sep
    · simp [splitCh, h]
    · rw [splitCh, if_neg h]
      cases hs : splitCh sep rest with
      | nil => exact absurd hs ih
      | cons hd tl => simp

theorem splitCh_cons_sep (sep : Char) (l : Chars) :
    splitCh sep (sep :: l) = [] :: splitCh sep l := by
  simp [splitCh]

theorem splitCh_cons_ne {sep c : Char} (h : c ≠ sep) {l : Chars} {hd : Chars}
    {tl : List Chars} (hs : splitCh sep l = hd :: tl) :
    splitCh sep (c :: l) = (c :: hd) :: tl := by
  rw [splitCh, if_neg h, hs]

theorem splitCh_no_sep {sep : Char} {l : Chars} (h : cmem sep l = false) :
    splitCh sep l = [l] := by
  induction l with
  | nil => rfl
  | cons c rest ih =>
    rw [cmem] at h
    by_cases hc : c = sep
    · rw [if_pos hc] at h
      exact Bool.noConfusion h
    · rw [if_neg hc] at h
      exact splitCh_cons_ne hc (ih h)

theorem splitCh_append_sep {sep : Char} {a : Chars} (r : Chars)
    (h : cmem sep a = false) :
    splitCh sep (a ++ sep :: r) = a :: splitCh sep r := by
  induction a with
  | nil => simp [splitCh_cons_sep]
  | cons c cs ih =>
    rw [cmem] at h
    by_cases hc : c = sep
    · rw [if_pos hc] at h
      exact Bool.noConfusion h
    · rw [if_neg hc] at h
      rw [List.cons_append]
      exact splitCh_cons_ne hc (ih h)

theorem splitCh_joinSep (sep : Char) :
    ∀ L : List Chars, L ≠ [] → (∀ l ∈ L, cmem sep l = false) →
      splitCh sep (joinSep sep L) = L := by
  intro L
  induction L with
  | nil => intro h _; exact absurd rfl h
  | cons x xs ih =>
    intro _ hmem
    cases xs with
    | nil =>
      rw [joinSep]
      exact splitCh_no_sep (hmem x (List.mem_cons_self x []))
    | cons y ys =>
      rw [joinSep, splitCh_append_sep _ (hmem x (List.mem_cons_self x (y :: ys)))]
      rw [ih (by simp) (fun l hl => hmem l (List.mem_cons_of_mem x hl))]

theorem linesOf_joinNL (L : List String) (hne : L ≠ [])
    (h : ∀ s ∈ L, containsChar '\n' s = false) :
    linesOf (joinNL L) = L := by
  rw [linesOf, joinNL]
  have hdata : (String.mk (joinSep '\n' (L.map String.data))).data
      = joinSep '\n' (L.map String.data) := rfl
  rw [hdata, splitCh_joinSep '\n' (L.map String.data)
    (by simpa using hne)
    (by
      intro l hl
      rcases List.mem_map.1 hl with ⟨s, hs, rfl⟩
      exact h s hs)]
  rw [List.map_map]
  calc L.map (String.mk ∘ String.data) = L.map id := List.map_congr_left (by
        intro s _
        exact strMk_data s)
    _ = L := List.map_id L

theorem pyStripChars_cons_space {c : Char} (hc : isPySpace c = true) (l : Chars) :
    pyStripChars (c :: l) = pyStripChars l := by
  rw [pyStripChars, pyStripChars, List.dropWhile_cons, if_pos hc]

theorem pyStripChars_ends {a b : Char} (ha : isPySpace a = false)
    (hb : isPySpace b = false) (l : Chars) :
    pyStripChars (a :: l ++ [b]) = a :: l ++ [b] := by
  rw [pyStripChars]
  rw [show (a :: l ++ [b]).dropWhile isPySpace = a :: l ++ [b] from by
    rw [List.cons_append, List.dropWhile_cons, if_neg (by simp [ha])]]
  rw [show (a :: l ++ [b]).reverse = b :: (a :: l).reverse from by
    rw [List.cons_append, ← List.cons_append, List.reverse_append]
    simp]
  rw [List.dropWhile_cons, if_neg (by simp [hb])]
  simp

theorem leadsWith_one {c : Char} {l : Chars} (h : leadsWith [c] l = true) :
    ∃ r, l = c :: r := by
  cases l with
  | nil => simp [leadsWith] at h
  | cons d ds =>
    by_cases hc : c = d
    · exact ⟨ds, by rw [hc]⟩
    · simp [leadsWith, hc] at h

theorem stdStep_none {l : String} (h : stdParseLine l = none) (m : PSet) :
    stdStep m l = m := by
  rw [stdStep, h]

theorem stdStep_some {l : String} {k v : String}
    (h : stdParseLine l = some (k, v)) (m : PSet) :
    stdStep m l = dictInsert m k v := by
  rw [stdStep, h]

theorem vmt_line_data (k v : String) :
    ("\t\"" ++ k ++ "\"\t\t\"" ++ v ++ "\"").data
      = '\t' :: '"' :: (k.data ++ '"' :: '\t' :: '\t' :: '"' :: (v.data ++ ['"'])) := by
  simp [strData_append]

theorem stdParseLine_fmt (k v : String)
    (hk : strStartsWith k "$" = true)
    (hkq : containsChar '"' k = false)
    (hvq : containsChar '"' v = false) :
    stdParseLine ("\t\"" ++ k ++ "\"\t\t\"" ++ v ++ "\"") = some (k, v) := by
  obtain ⟨kr, hkr⟩ := leadsWith_one (by
    rw [strStartsWith, show ("$").data = ['$'] from rfl] at hk
    exact hk)
  have hkrq : cmem '"' kr = false := by
    rw [containsChar, hkr, cmem, if_neg (by decide)] at hkq
    exact hkq
  have hstrip : (pyStrip ("\t\"" ++ k ++ "\"\t\t\"" ++ v ++ "\"")).data
      = '"' :: (k.data ++ '"' :: '\t' :: '\t' :: '"' :: (v.data ++ ['"'])) := by
    show pyStripChars ("\t\"" ++ k ++ "\"\t\t\"" ++ v ++ "\"").data = _
    rw [vmt_line_data, pyStripChars_cons_space (by decide)]
    have hsh : '"' :: (k.data ++ '"' :: '\t' :: '\t' :: '"' :: (v.data ++ ['"']))
        = '"' :: (k.data ++ '"' :: '\t' :: '\t' :: '"' :: v.data) ++ ['"'] := by
      simp
    rw [hsh, pyStripChars_ends (by decide) (by decide)]
  have hsplit : splitCh '"' (pyStrip ("\t\"" ++ k ++ "\"\t\t\"" ++ v ++ "\"")).data
      = [[], k.data, ['\t', '\t'], v.data, []] := by
    rw [hstrip, splitCh_cons_sep]
    rw [splitCh_append_sep _ hkq]
    rw [show ('\t' :: '\t' :: '"' :: (v.data ++ ['"']))
        = ['\t', '\t'] ++ '"' :: (v.data ++ ['"']) from rfl]
    rw [splitCh_append_sep _ (by decide)]
    rw [show (v.data ++ ['"']) = v.data ++ '"' :: [] from rfl]
    rw [splitCh_append_sep _ hvq]
    rfl
  rw [stdParseLine]
  have hsw : strStartsWith (pyStrip ("\t\"" ++ k ++ "\"\t\t\"" ++ v ++ "\"")) "\"$" = true := by
    rw [strStartsWith, show ("\"$").data = ['"', '$'] from rfl, hstrip, hkr]
    simp [leadsWith]
  have hq2 : containsChar '"' (strDrop 2 (pyStrip ("\t\"" ++ k ++ "\"\t\t\"" ++ v ++ "\""))) = true := by
    show cmem '"' ((pyStrip ("\t\"" ++ k ++ "\"\t\t\"" ++ v ++ "\"")).data.drop 2) = true
    rw [hstrip, hkr]
    simp only [List.cons_append, List.drop_succ_cons, List.drop_zero]
    rw [cmem_append]
    simp [cmem]
  rw [if_pos (by rw [hsw, hq2]; rfl)]
  have hparts : splitQuotes (pyStrip ("\t\"" ++ k ++ "\"\t\t\"" ++ v ++ "\""))
      = ["", String.mk k.data, "\t\t", String.mk v.data, ""] := by
    rw [splitQuotes, hsplit]
    rfl
  rw [hparts]
  simp [strMk_data]

theorem foldl_stdStep_fmt :
    ∀ (p : PSet) (m : PSet),
      (∀ x ∈ p, stdParseLine ("\t\"" ++ x.1 ++ "\"\t\t\"" ++ x.2 ++ "\"") = some (x.1, x.2)) →
      List.foldl stdStep m (p.map (fun x => "\t\"" ++ x.1 ++ "\"\t\t\"" ++ x.2 ++ "\""))
        = dictUpdate m p := by
  intro p
  induction p with
  | nil => intro m _; rfl
  | cons x xs ih =>
    intro m h
    rw [List.map_cons, List.foldl_cons,
      stdStep_some (h x (List.mem_cons_self x xs)) m]
    rw [dictUpdate, List.foldl_cons]
    exact ih (dictInsert m x.1 x.2) (fun y hy => h y (List.mem_cons_of_mem x hy))

/-- Claim C2 (amended): round trip at the parameter-set level for
standard-shaped content.  For a parameter list with pairwise distinct
keys, every key starting with a dollar sign, keys and values free of
quotes and newlines, and whose serialization is not mistaken for a patch
document, parsing the serializer's output returns exactly the same ordered
parameter list.  The variant, shader name and include path are NOT
preserved (see the counterexample): `build_vmt_from_params` always emits a
Standard VertexLitGeneric block. -/
theorem roundtrip_params_standard (p : PSet) (hnd : NodupKeys p)
    (hks : ∀ x ∈ p, strStartsWith x.1 "$" = true)
    (hkq : ∀ x ∈ p, containsChar '"' x.1 = false ∧ containsChar '\n' x.1 = false)
    (hvq : ∀ x ∈ p, containsChar '"' x.2 = false ∧ containsChar '\n' x.2 = false)
    (hnp : vmtIsPatch (build_vmt_from_params p) = false) :
    parse_vmt_params (build_vmt_from_params p) = p := by
  rw [parse_vmt_params, if_neg (by rw [hnp]; simp)]
  rw [parse_standard_vmt]
  have hlines : linesOf (build_vmt_from_params p)
      = "\"VertexLitGeneric\"" :: "\x7b"
        :: (p.map (fun x => "\t\"" ++ x.1 ++ "\"\t\t\"" ++ x.2 ++ "\"") ++ ["\x7d"]) := by
    rw [build_vmt_from_params]
    rw [linesOf_joinNL _ (by simp)]
    · simp
    · refine List.forall_mem_append.2 ⟨List.forall_mem_append.2 ⟨?_, ?_⟩, ?_⟩
      · intro s hs
        rcases List.mem_cons.1 hs with rfl | hs'
        · decide
        · rcases List.mem_singleton.1 hs' with rfl
          decide
      · intro s hs
        rcases List.mem_map.1 hs with ⟨x, hx, rfl⟩
        show cmem '\n' ("\t\"" ++ x.1 ++ "\"\t\t\"" ++ x.2 ++ "\"").data = false
        rw [vmt_line_data]
        rw [show (x.1.data ++ '"' :: '\t' :: '\t' :: '"' :: (x.2.data ++ ['"']))
            = x.1.data ++ (['"', '\t', '\t', '"'] ++ (x.2.data ++ ['"'])) from rfl]
        rw [cmem, if_neg (by decide), cmem, if_neg (by decide)]
        rw [cmem_append, cmem_append, cmem_append]
        have hx1 : cmem '\n' x.1.data = false := (hkq x hx).2
        have hx2 : cmem '\n' x.2.data = false := (hvq x hx).2
        rw [hx1, hx2]
        decide
      · intro s hs
        rcases List.mem_singleton.1 hs with rfl
        decide
  rw [hlines, List.foldl_cons, List.foldl_cons,
    stdStep_none (by decide) [], stdStep_none (by decide) [],
    List.foldl_append, foldl_stdStep_fmt p []
      (fun x hx => stdParseLine_fmt x.1 x.2 (hks x hx) (hkq x hx).1 (hvq x hx).1)]
  rw [List.foldl_cons, List.foldl_nil, stdStep_none (by decide)]
  rw [dictUpdate_fresh p [] hnd (fun x _ => by rw [hasKey])]
  simp

/-- Witness for the amended round-trip theorem at a concrete list. -/
theorem roundtrip_params_standard_witness :
    NodupKeys [("$basetexture", "brick/wall_a"), ("$surfaceprop", "metal")] ∧
    parse_vmt_params (build_vmt_from_params
        [("$basetexture", "brick/wall_a"), ("$surfaceprop", "metal")])
      = [("$basetexture", "brick/wall_a"), ("$surfaceprop", "metal")] :=
  ⟨by decide,
    roundtrip_params_standard [("$basetexture", "brick/wall_a"), ("$surfaceprop", "metal")]
      (by decide) (by decide) (by decide) (by decide) (by decide)⟩

/-- Witness for the amended custom-preservation theorem. -/
theorem custom_preservation_amended_witness :
    lookupKey [("$decal", "custom/path")] "$decal" = some "custom/path" ∧
    lookupKey (smart_merge_params [("$decal", "custom/path")]
        [("$decal", "other/val")] "mymat") "$decal" = some "custom/path" :=
  ⟨by decide,
    custom_preservation_amended [("$decal", "custom/path")] [("$decal", "other/val")]
      "mymat" "$decal" "custom/path" (by decide) (by decide) (by decide)
      (by decide) (by decide)⟩

/-- Witness for the amended new-key-addition theorem. -/
theorem new_key_addition_smart_merge_witness :
    ("$translucent", "1") ∈ ([("$translucent", "1")] : PSet) ∧
    lookupKey (smart_merge_params [("$surfaceprop", "metal")]
        [("$translucent", "1")] "m") "$translucent" = some "1" :=
  ⟨by decide,
    new_key_addition_smart_merge [("$surfaceprop", "metal")] [("$translucent", "1")]
      "m" "$translucent" "1" (by decide) (by decide) (by decide)⟩

/-- Witness for the malformed-input fallthrough theorem. -/
theorem malformed_treated_as_empty_witness :
    NodupKeys [("$basetexture", "b"), ("$phong", "1")] ∧
    smart_merge_params (parse_vmt_params malformedDoc)
        [("$basetexture", "b"), ("$phong", "1")] "m"
      = [("$basetexture", "b"), ("$phong", "1")] :=
  ⟨by decide,
    malformed_treated_as_empty [("$basetexture", "b"), ("$phong", "1")] "m" (by decide)⟩

/-- Witness for the no-include opacity theorem: a patch document with no
include directive parses the same over two different filesystems, base
directories and fuels. -/
theorem patch_parse_opacity_no_include_witness :
    (∀ l ∈ linesOf noIncludePatch, ¬(strStartsWith (pyStrip l) "include" = true
      ∧ containsChar '"' (pyStrip l) = true)) ∧
    parse_patch_vmt_params true [("base.vmt", baseWood)] (0 + 1) noIncludePatch ""
      = parse_patch_vmt_params false [] (4 + 1) noIncludePatch "dir" :=
  ⟨by decide,
    patch_parse_opacity_no_include true false [("base.vmt", baseWood)] [] 0 4
      noIncludePatch "" "dir" (by decide)⟩

/-- Witness for the exact-key-uniqueness theorem: even a merge that
produces two case-insensitively equal keys keeps exact keys distinct. -/
theorem exact_key_uniqueness_witness :
    NodupKeys [("$BaseTexture", "a")] ∧
    (NodupKeys (parse_vmt_params malformedDoc) ∧
      NodupKeys (smart_merge_params [("$BaseTexture", "a")] [("$basetexture", "b")] "m")) :=
  ⟨by decide,
    exact_key_uniqueness malformedDoc [("$BaseTexture", "a")] [("$basetexture", "b")]
      "m" (by decide)⟩

/-- Witness for the patch replace/insert priority theorem at a concrete
state: replace overwrites the earlier binding, insert leaves it alone. -/
theorem patch_replace_insert_priority_witness :
    _parse_vmt_line (pyStrip "\t\"$a\" \"1\"") = some ("$a", "1") ∧
    ((patchStep (fun _ => []) { params := [("$a", "0")], sec := some "replace", brace := 2 }
        "\t\"$a\" \"1\"").params = dictInsert [("$a", "0")] "$a" "1" ∧
      lookupKey (patchStep (fun _ => [])
          { params := [("$a", "0")], sec := some "replace", brace := 2 }
          "\t\"$a\" \"1\"").params "$a" = some "1" ∧
      (patchStep (fun _ => []) { params := [("$a", "0")], sec := some "insert", brace := 2 }
          "\t\"$a\" \"1\"").params
        = (if hasKey [("$a", "0")] "$a" = true then [("$a", "0")]
           else [("$a", "0")] ++ [("$a", "1")])) :=
  ⟨by decide,
    patch_replace_insert_priority (fun _ => []) [("$a", "0")] 2 "\t\"$a\" \"1\"" "$a" "1"
      (by decide) (by decide) (by decide) (by decide) (by decide)⟩

/-- Claim C2, counterexample: the round trip does not preserve the
document's variant.  A valid Patch document parses as patch, but the
serializer emits a Standard VertexLitGeneric block, so the re-parsed text
is no longer patch-shaped and the include path has disappeared. -/
theorem roundtrip_variant_counterexample :
    vmtIsPatch scenBExisting = true ∧
    vmtIsPatch (build_vmt_from_params (parse_vmt_params scenBExisting)) = false ∧
    strOccurs "include" (toLowerStr (build_vmt_from_params (parse_vmt_params scenBExisting)))
        = false := by
  decide

end VMT
